import Mathlib

/-!
Verification development for the `solana_token` repository, wallet component
(`src/wallet.js`).  JavaScript strings are modelled as Lean `String`
(with `List Char` for character-level reasoning), byte arrays (`Uint8Array`,
`Buffer`) as `List Nat`, `null` as `Option.none`, and thrown exceptions as
`Except.error`.  The external cryptographic libraries (`bip39`,
`ed25519-hd-key`, `tweetnacl`, `@solana/web3.js`) are modelled as fixed
deterministic functions collected in a `Crypto` structure; the structural
facts about them that the code relies on (for example that a tweetnacl
secret key is the 32-byte seed followed by the 32-byte public key, and that
`derivePath` throws when its seed argument is `null`) are written into the
model directly.
-/

namespace SolanaToken

/-- Model of the JavaScript regular-expression whitespace class `\s`
(the code points matched by `/\s/` in ECMAScript). -/
def isWs (c : Char) : Bool :=
  [9, 10, 11, 12, 13, 32, 160, 5760, 8192, 8193, 8194, 8195, 8196, 8197,
    8198, 8199, 8200, 8201, 8202, 8232, 8233, 8239, 8287, 12288,
    65279].contains c.toNat

/-- Remove a trailing whitespace run (the tail half of JavaScript
`String.prototype.trim`). -/
def dropTrailWs : List Char → List Char
  | [] => []
  | c :: cs =>
    match dropTrailWs cs with
    | [] => if isWs c then [] else [c]
    | r => c :: r

/-- Model of JavaScript `String.prototype.trim` on character lists:
drop the leading whitespace run, then the trailing one. -/
def jsTrim (l : List Char) : List Char :=
  dropTrailWs (l.dropWhile isWs)

/-- Scanner for JavaScript `str.split(/\s+/g)`.  The second argument is
`some cur` while a chunk (possibly empty) is being accumulated in reverse,
and `none` while inside a whitespace run that has already closed a chunk. -/
def splitWsGo : List Char → Option (List Char) → List (List Char)
  | [], some cur => [cur.reverse]
  | [], none => [[]]
  | c :: cs, some cur =>
    if isWs c then cur.reverse :: splitWsGo cs none
    else splitWsGo cs (some (c :: cur))
  | c :: cs, none =>
    if isWs c then splitWsGo cs none
    else splitWsGo cs (some [c])

/-- Model of JavaScript `str.split(/\s+/g)`: split at maximal whitespace
runs; a leading or trailing run contributes an empty chunk. -/
def splitWsRuns (l : List Char) : List (List Char) :=
  splitWsGo l (some [])

/-- Model of JavaScript `arr.join(" ")` on character lists. -/
def joinSp : List (List Char) → List Char
  | [] => []
  | [w] => w
  | w :: ws => w ++ ' ' :: joinSp ws

/-- The maximal whitespace-free words of a character list (leading,
trailing and repeated whitespace ignored).  Used only in proofs, to
describe the behaviour of `splitWsRuns` composed with `jsTrim`. -/
def wordsAux : List Char → List Char → List (List Char)
  | [], cur => if cur.isEmpty then [] else [cur.reverse]
  | c :: cs, cur =>
    if isWs c then
      if cur.isEmpty then wordsAux cs [] else cur.reverse :: wordsAux cs []
    else wordsAux cs (c :: cur)

/-- The whitespace-separated words of a character list. -/
def jsWords (l : List Char) : List (List Char) :=
  wordsAux l []

/-- Number of whitespace-separated words in a string. -/
def mnemonicWordCount (s : String) : Nat :=
  (jsWords s.toList).length

/-- Embedding of `Wallet._normalizeMnemonic`:
`mnemonic.trim().split(/\s+/g).join(" ")`. -/
def _normalizeMnemonic (mnemonic : String) : String :=
  String.mk (joinSp (splitWsRuns (jsTrim mnemonic.toList)))

/-- The external cryptographic primitives used by `wallet.js`, modelled as
fixed deterministic functions (the code treats them as pure):
`validateMnemonic` is `bip39.validateMnemonic`; `mnemonicToSeedHexFn` is
`bip39.mnemonicToSeedSync` composed with hex encoding, taking the already
defaulted passphrase (`pass || ""`); `isValidPath` is `ed25519-hd-key`
path validation; `derivePathKey` is the `.key` field of a successful
`derivePath` call; `naclPub` maps a 32-byte ed25519 seed to its public
key. -/
structure Crypto where
  validateMnemonic : String → Bool
  mnemonicToSeedHexFn : String → String → String
  isValidPath : String → Bool
  derivePathKey : String → String → List Nat
  naclPub : List Nat → List Nat

/-- An ed25519 keypair as produced by tweetnacl and wrapped by
`@solana/web3.js`: a 64-byte secret key (seed then public key) and the
32-byte public key. -/
structure Keypair where
  secretKey : List Nat
  publicKey : List Nat
deriving Repr, DecidableEq

/-- Model of `nacl.sign.keyPair.fromSeed`: requires a 32-byte seed and
produces the secret key `seed ++ publicKey` (the tweetnacl layout);
throws `bad seed size` otherwise. -/
def naclFromSeed (C : Crypto) (seed : List Nat) : Except String Keypair :=
  if seed.length = 32 then
    Except.ok ⟨seed ++ C.naclPub seed, C.naclPub seed⟩
  else Except.error ("bad seed size")

/-- Model of `solana.Keypair.fromSecretKey`: requires a 64-byte secret
key and validates that the trailing 32 bytes are the public key of the
leading 32-byte seed (web3.js performs this check by signing and
verifying a probe message); the stored secret key is the input,
unchanged. -/
def keypairFromSecretKey (C : Crypto) (sk : List Nat) : Except String Keypair :=
  if sk.length = 64 then
    if C.naclPub (sk.take 32) = sk.drop 32 then
      Except.ok ⟨sk, sk.drop 32⟩
    else Except.error ("provided secretKey is invalid")
  else Except.error ("bad secret key size")

/-- Model of `ed25519-hd-key`'s `derivePath(path, seedHex).key`: the
library first validates the path (throwing `Invalid derivation path`),
then feeds the seed to `Buffer.from(seed, "hex")`, which throws a
`TypeError` when the seed is `null` (the value `_mnemonicToSeedHex`
returns for an invalid mnemonic). -/
def derivePathCall (C : Crypto) (path : String) (seedHex : Option String) :
    Except String (List Nat) :=
  if C.isValidPath path then
    match seedHex with
    | some s => Except.ok (C.derivePathKey path s)
    | none => Except.error ("TypeError: seed must be a string")
  else Except.error ("Invalid derivation path")

/-- Model of bip39's passphrase defaulting `(password || "")`
(`null` and the empty string both become `""`). -/
def passStr (p : Option String) : String :=
  p.getD ("")

/-- Model of the JavaScript defaulting idiom `x || d` on an optional
string argument (`null`, `undefined` and `""` are all falsy). -/
def jsOrStr (o : Option String) (d : String) : String :=
  match o with
  | none => d
  | some s => if s = "" then d else s

/-- The `deprecated` entry of `_derivationPaths`. -/
def deprecatedPath : String := "m/501\x27/0\x27/0/0"

/-- The `bip44` entry of `_derivationPaths`. -/
def bip44Path : String := "m/44\x27/501\x27/0\x27"

/-- The `bip44Change` entry of `_derivationPaths`. -/
def bip44ChangePath : String := "m/44\x27/501\x27/0\x27/0\x27"

/-- The `_derivationPaths` object literal built in the `Wallet` (and
`WalletFactory`) constructor, as an ordered key-value table. -/
def derivationPathsTable : List (String × String) :=
  [("deprecated", deprecatedPath), ("bip44", bip44Path),
    ("bip44Change", bip44ChangePath)]

/-- The wallet state: the five instance fields assigned by the `Wallet`
constructor and its restore methods.  `null` is `none`. -/
structure Wallet where
  _derivedPath : Option String
  _mnemonic : Option String
  _seed : Option (List Nat)
  _seedHex : Option String
  _keypair : Option Keypair
deriving Repr, DecidableEq

/-- A freshly constructed `new Wallet()`: every field is `null`. -/
def Wallet.new : Wallet :=
  ⟨none, none, none, none, none⟩

/-- Embedding of `Wallet._mnemonicToSeedHex`: `null` when
`bip39.validateMnemonic` rejects the mnemonic, otherwise the hex-encoded
`bip39.mnemonicToSeedSync(mnemonic, pass)`. -/
def _mnemonicToSeedHex (C : Crypto) (mnemonic : String) (pass : Option String) :
    Option String :=
  if C.validateMnemonic mnemonic then
    some (C.mnemonicToSeedHexFn mnemonic (passStr pass))
  else none

/-- Hex digit for a value below 16. -/
def hexDigit (n : Nat) : Char :=
  if n < 10 then Char.ofNat (48 + n) else Char.ofNat (87 + n)

/-- Model of `Buffer.from(bytes).toString("hex")`. -/
def bytesToHex (l : List Nat) : String :=
  String.mk (l.flatMap (fun b => [hexDigit (b / 16 % 16), hexDigit (b % 16)]))

/-- Embedding of `Wallet.create`.  The method mutates the receiver and
returns `this`; both are modelled by returning the full new state (every
field is assigned).  The mnemonic produced by the call to
`bip39.generateMnemonic(256)` is passed in explicitly as `gen`, since it
is the one non-deterministic input.  A thrown exception is `Except.error`. -/
def createM (_self : Wallet) (C : Crypto) (gen : String)
    (pass derivedPath : Option String) : Except String Wallet :=
  let path := jsOrStr derivedPath bip44ChangePath
  let mnemonic := gen
  let seedHex := _mnemonicToSeedHex C mnemonic pass
  match derivePathCall C path seedHex with
  | Except.error e => Except.error e
  | Except.ok seed =>
    match naclFromSeed C seed with
    | Except.error e => Except.error e
    | Except.ok nk =>
      match keypairFromSecretKey C nk.secretKey with
      | Except.error e => Except.error e
      | Except.ok kp => Except.ok ⟨some path, some mnemonic, some seed, seedHex, some kp⟩

/-- Embedding of `Wallet.restoreFromMnemonic`: identical pipeline to
`create`, except that the mnemonic is the normalized caller-supplied
phrase. -/
def restoreFromMnemonicM (_self : Wallet) (C : Crypto) (mnemonic : String)
    (pass derivedPath : Option String) : Except String Wallet :=
  let path := jsOrStr derivedPath bip44ChangePath
  let mnemonic := _normalizeMnemonic mnemonic
  let seedHex := _mnemonicToSeedHex C mnemonic pass
  match derivePathCall C path seedHex with
  | Except.error e => Except.error e
  | Except.ok seed =>
    match naclFromSeed C seed with
    | Except.error e => Except.error e
    | Except.ok nk =>
      match keypairFromSecretKey C nk.secretKey with
      | Except.error e => Except.error e
      | Except.ok kp => Except.ok ⟨some path, some mnemonic, some seed, seedHex, some kp⟩

/-- Embedding of `Wallet.restoreFromSeed`: path and mnemonic are cleared,
the seed is stored with its hex encoding, and the keypair is expanded
directly from the seed. -/
def restoreFromSeedM (_self : Wallet) (C : Crypto) (seed : List Nat) :
    Except String Wallet :=
  match naclFromSeed C seed with
  | Except.error e => Except.error e
  | Except.ok nk =>
    match keypairFromSecretKey C nk.secretKey with
    | Except.error e => Except.error e
    | Except.ok kp => Except.ok ⟨none, none, some seed, some (bytesToHex seed), some kp⟩

/-- Embedding of `Wallet.restoreFromPrivateKey`: all derivation fields
are cleared and the keypair is rebuilt from the raw 64-byte secret key
with no transformation. -/
def restoreFromPrivateKeyM (_self : Wallet) (C : Crypto) (privateKey : List Nat) :
    Except String Wallet :=
  match keypairFromSecretKey C privateKey with
  | Except.error e => Except.error e
  | Except.ok kp => Except.ok ⟨none, none, none, none, some kp⟩

/-- Accessor `get mnemonic`. -/
def Wallet.mnemonic (w : Wallet) : Option String :=
  w._mnemonic

/-- Accessor `get seed`. -/
def Wallet.seed (w : Wallet) : Option (List Nat) :=
  w._seed

/-- Accessor `get keypair`. -/
def Wallet.keypair (w : Wallet) : Option Keypair :=
  w._keypair

/-- Accessor `get privateKey`: `this._keypair ? this._keypair.secretKey : null`. -/
def Wallet.privateKey (w : Wallet) : Option (List Nat) :=
  w._keypair.map Keypair.secretKey

/-- Accessor `get publicKey`. -/
def Wallet.publicKey (w : Wallet) : Option (List Nat) :=
  w._keypair.map Keypair.publicKey

/-- Accessor `get derivationPaths` (the table is the same literal on
every instance). -/
def Wallet.derivationPaths (_w : Wallet) : List (String × String) :=
  derivationPathsTable

/-- True when the list does not end in a whitespace character.  Proof
helper describing the output of `jsTrim`. -/
def noTrailWs : List Char → Bool
  | [] => true
  | [c] => !isWs c
  | _ :: cs => noTrailWs cs

/-- Split a bit list into consecutive groups of 11, with fuel (the fuel
is the list length at the entry point, so it never runs out). -/
def chunkN : Nat → List Bool → List (List Bool)
  | 0, _ => []
  | _ + 1, [] => []
  | n + 1, l => l.take 11 :: chunkN n (l.drop 11)

/-- The consecutive 11-bit groups of a bit list. -/
def chunk11 (l : List Bool) : List (List Bool) :=
  chunkN l.length l

/-- Big-endian interpretation of a bit list as a wordlist index. -/
def bitsToNat (l : List Bool) : Nat :=
  l.foldl (fun a b => 2 * a + (cond b 1 0)) 0

/-- Model of bip39 mnemonic encoding, as used by
`bip39.generateMnemonic(256)`: the entropy bits followed by the checksum
bits are split into 11-bit groups, each group indexes the 2048-entry
wordlist, and the words are joined with single spaces.  For 256-bit
entropy the checksum has 8 bits. -/
def mnemonicFromEntropy (wordlist : Nat → List Char)
    (entropy checksum : List Bool) : String :=
  String.mk (joinSp ((chunk11 (entropy ++ checksum)).map
    (fun g => wordlist (bitsToNat g))))

/-- A JavaScript value as far as the module-export wiring needs:
`undefined`, a string, a function (named), or an object (named tag; the
contents are not needed at this level). -/
inductive JsValue where
  | undef : JsValue
  | strV : String → JsValue
  | fnV : String → JsValue
  | objTag : String → JsValue
deriving Repr, DecidableEq

/-- JavaScript property access on an object given as a key-value list:
a missing key reads as `undefined`. -/
def jsGet (props : List (String × JsValue)) (k : String) : JsValue :=
  (props.lookup k).getD JsValue.undef

/-- The value of `require("./wallet")`: `wallet.js` ends with
`module.exports = new WalletFactory()`, so the export object is the bare
factory instance — its own `_derivationPaths` field plus the
`WalletFactory` prototype members.  (The earlier `export class Wallet`
binding is discarded when `module.exports` is reassigned.) -/
def walletModuleExports : List (String × JsValue) :=
  [("_derivationPaths", JsValue.objTag ("derivationPaths")),
    ("derivationPaths", JsValue.fnV ("get derivationPaths")),
    ("create", JsValue.fnV ("create")),
    ("restoreFromMnemonic", JsValue.fnV ("restoreFromMnemonic")),
    ("restoreFromSeed", JsValue.fnV ("restoreFromSeed")),
    ("restoreFromPrivateKey", JsValue.fnV ("restoreFromPrivateKey"))]

/-- The value of `require("./spl")`: `spl.js` ends with
`module.exports = new SplFactory()`; only the absence of `Spl` and
`splFactory` keys matters here. -/
def splModuleExports : List (String × JsValue) :=
  [("_derivationPaths", JsValue.objTag ("splFactoryState"))]

/-- The package index (`src/unnamed/part_001`): it re-exports the named
properties `Wallet`, `walletFactory`, `Spl` and `splFactory` read off the
two module export objects. -/
def indexModuleExports : List (String × JsValue) :=
  [("Wallet", jsGet walletModuleExports ("Wallet")),
    ("walletFactory", jsGet walletModuleExports ("walletFactory")),
    ("Spl", jsGet splModuleExports ("Spl")),
    ("splFactory", jsGet splModuleExports ("splFactory"))]

/-- The binding `const { Wallet } = require("./wallet")` at the top of
`spl.js`. -/
def splWalletBinding : JsValue :=
  jsGet walletModuleExports ("Wallet")

/-- Modelled from the spec: the table of recognized named derivation
paths exactly as the specification writes it, with an entry named
`legacy`.  Declared only to compare the specified table with the table
in the source (`derivationPathsTable`). -/
def specDerivationPaths : List (String × String) :=
  [("legacy", "m/501\x27/0\x27/0/0"), ("bip44", "m/44\x27/501\x27/0\x27"),
    ("bip44Change", "m/44\x27/501\x27/0\x27/0\x27")]

/-- A concrete instantiation of the cryptographic primitives, used by the
witness theorems: every mnemonic validates, every path is accepted, the
derived key tags the three recognized paths with distinct leading bytes,
and the public-key map is constant. -/
def cryptoOk : Crypto :=
  ⟨fun _ => true, fun _ _ => "cafe", fun _ => true,
    fun pth _ =>
      (if pth = deprecatedPath then 1 else if pth = bip44Path then 2 else 3)
        :: List.replicate 31 0,
    fun _ => List.replicate 32 0⟩

/-- A concrete instantiation on which every mnemonic fails checksum
validation, used to witness the invalid-mnemonic behaviour. -/
def cryptoBad : Crypto :=
  ⟨fun _ => false, fun _ _ => "", fun _ => true,
    fun _ _ => List.replicate 32 0, fun _ => List.replicate 32 0⟩

/-- The wallet state produced by `create` under `cryptoOk` with the
default derivation path and generated mnemonic `abandon ability`. -/
def wDefault : Wallet :=
  ⟨some bip44ChangePath, some ("abandon ability"),
    some (3 :: List.replicate 31 0), some ("cafe"),
    some ⟨(3 :: List.replicate 31 0) ++ List.replicate 32 0,
      List.replicate 32 0⟩⟩

/-- Wallet restored under `cryptoOk` from mnemonic `x` along the
`deprecated` path. -/
def wPathA : Wallet :=
  ⟨some deprecatedPath, some (_normalizeMnemonic ("x")),
    some (1 :: List.replicate 31 0), some ("cafe"),
    some ⟨(1 :: List.replicate 31 0) ++ List.replicate 32 0,
      List.replicate 32 0⟩⟩

/-- Wallet restored under `cryptoOk` from mnemonic `x` along the
`bip44` path. -/
def wPathB : Wallet :=
  ⟨some bip44Path, some (_normalizeMnemonic ("x")),
    some (2 :: List.replicate 31 0), some ("cafe"),
    some ⟨(2 :: List.replicate 31 0) ++ List.replicate 32 0,
      List.replicate 32 0⟩⟩

/-- Wallet restored under `cryptoOk` from mnemonic `x` along the
`bip44Change` path. -/
def wPathC : Wallet :=
  ⟨some bip44ChangePath, some (_normalizeMnemonic ("x")),
    some (3 :: List.replicate 31 0), some ("cafe"),
    some ⟨(3 :: List.replicate 31 0) ++ List.replicate 32 0,
      List.replicate 32 0⟩⟩

/-- A well-formed 64-byte private key (seed of ones, then the public key
`cryptoOk.naclPub` assigns to every seed). -/
def pk1 : List Nat :=
  List.replicate 32 1 ++ List.replicate 32 0

/-- A second well-formed 64-byte private key, distinct from `pk1`. -/
def pk2 : List Nat :=
  List.replicate 32 2 ++ List.replicate 32 0

/-- The wallet state produced by `restoreFromPrivateKey(pk1)`. -/
def wPk1 : Wallet :=
  ⟨none, none, none, none, some ⟨pk1, List.replicate 32 0⟩⟩

/-- The wallet state produced by `restoreFromPrivateKey(pk2)`. -/
def wPk2 : Wallet :=
  ⟨none, none, none, none, some ⟨pk2, List.replicate 32 0⟩⟩

/-- An all-ones wordlist entry model: every index maps to the one-letter
word `a`. -/
def wlW : Nat → List Char :=
  fun _ => ['a']

/-- 256 bits of entropy for the generation witness. -/
def entW : List Bool :=
  List.replicate 256 true

/-- The matching 8 checksum bits for the generation witness. -/
def csW : List Bool :=
  List.replicate 8 true

/-- The generated mnemonic of the witness: 24 copies of the word `a`. -/
def genW : String :=
  mnemonicFromEntropy wlW entW csW

/-- The wallet state produced by `create` under `cryptoOk` with
generated mnemonic `genW` and the default path. -/
def wGen : Wallet :=
  ⟨some bip44ChangePath, some genW, some (3 :: List.replicate 31 0),
    some ("cafe"),
    some ⟨(3 :: List.replicate 31 0) ++ List.replicate 32 0,
      List.replicate 32 0⟩⟩

end SolanaToken



namespace SolanaToken

set_option maxRecDepth 4000

/-! Unfolding equations for the recursive definitions, stated once so the
later proofs can rewrite with exactly the intended case. -/

theorem wordsAux_nil (cur : List Char) :
    wordsAux [] cur = if cur.isEmpty then [] else [cur.reverse] := rfl

theorem wordsAux_cons (a : Char) (as cur : List Char) :
    wordsAux (a :: as) cur =
      if isWs a then
        if cur.isEmpty then wordsAux as [] else cur.reverse :: wordsAux as []
      else wordsAux as (a :: cur) := rfl

theorem splitWsGo_nil_some (cur : List Char) :
    splitWsGo [] (some cur) = [cur.reverse] := rfl

theorem splitWsGo_nil_none : splitWsGo [] none = [[]] := rfl

theorem splitWsGo_cons_some (c : Char) (cs cur : List Char) :
    splitWsGo (c :: cs) (some cur) =
      if isWs c then cur.reverse :: splitWsGo cs none
      else splitWsGo cs (some (c :: cur)) := rfl

theorem splitWsGo_cons_none (c : Char) (cs : List Char) :
    splitWsGo (c :: cs) none =
      if isWs c then splitWsGo cs none else splitWsGo cs (some [c]) := rfl

theorem noTrailWs_single (c : Char) : noTrailWs [c] = !isWs c := rfl

theorem noTrailWs_cons2 (a b : Char) (bs : List Char) :
    noTrailWs (a :: b :: bs) = noTrailWs (b :: bs) := rfl

theorem dropTrailWs_cons_nil {a : Char} {as : List Char}
    (h : dropTrailWs as = []) :
    dropTrailWs (a :: as) = if isWs a then [] else [a] := by
  rw [dropTrailWs, h]

theorem dropTrailWs_cons_cons {a : Char} {as : List Char} {b : Char}
    {bs : List Char} (h : dropTrailWs as = b :: bs) :
    dropTrailWs (a :: as) = a :: b :: bs := by
  rw [dropTrailWs, h]

theorem chunkN_succ_cons (n : Nat) (a : Bool) (l : List Bool) :
    chunkN (n + 1) (a :: l) =
      (a :: l).take 11 :: chunkN n ((a :: l).drop 11) := rfl

/-! Lemmas about the whitespace model: the scanner `splitWsGo` composed
with `jsTrim` produces exactly the whitespace-separated words, the words
are nonempty and whitespace-free, and rejoining them is a fixed point. -/

theorem wordsAux_append (w : List Char) (l cur : List Char)
    (hw : ∀ c ∈ w, isWs c = false) :
    wordsAux (w ++ l) cur = wordsAux l (w.reverse ++ cur) := by
  induction w generalizing cur with
  | nil => simp
  | cons c w ih =>
    have hc : isWs c = false := hw c (List.mem_cons_self c w)
    have hw' : ∀ x ∈ w, isWs x = false :=
      fun x hx => hw x (List.mem_cons_of_mem c hx)
    rw [List.cons_append, wordsAux_cons, if_neg (by simp [hc]), ih (c :: cur) hw']
    simp

theorem wordsAux_good (l : List Char) (cur : List Char)
    (hcur : ∀ c ∈ cur, isWs c = false) :
    ∀ w ∈ wordsAux l cur, w ≠ [] ∧ ∀ c ∈ w, isWs c = false := by
  induction l generalizing cur with
  | nil =>
    intro w hw
    rw [wordsAux_nil] at hw
    by_cases h : cur.isEmpty
    · simp [h] at hw
    · rw [if_neg h] at hw
      simp at hw
      subst hw
      refine ⟨by simpa [List.isEmpty_iff] using h, ?_⟩
      intro c hc
      exact hcur c (List.mem_reverse.mp hc)
  | cons a as ih =>
    intro w hw
    rw [wordsAux_cons] at hw
    by_cases ha : isWs a = true
    · rw [if_pos ha] at hw
      by_cases h : cur.isEmpty
      · rw [if_pos h] at hw
        exact ih [] (by simp) w hw
      · rw [if_neg h] at hw
        rcases List.mem_cons.mp hw with rfl | hmem
        · refine ⟨by simpa [List.isEmpty_iff] using h, ?_⟩
          intro c hc
          exact hcur c (List.mem_reverse.mp hc)
        · exact ih [] (by simp) w hmem
    · rw [if_neg ha] at hw
      refine ih (a :: cur) ?_ w hw
      intro c hc
      rcases List.mem_cons.mp hc with rfl | hmem
      · simpa using ha
      · exact hcur c hmem

theorem jsWords_joinSp (ws : List (List Char))
    (h : ∀ w ∈ ws, w ≠ [] ∧ ∀ c ∈ w, isWs c = false) :
    jsWords (joinSp ws) = ws := by
  induction ws with
  | nil => rfl
  | cons w ws ih =>
    obtain ⟨hne, hok⟩ := h w (List.mem_cons_self w ws)
    cases ws with
    | nil =>
      show wordsAux (joinSp [w]) [] = [w]
      have hj : joinSp [w] = w ++ [] := by simp [joinSp]
      rw [hj, wordsAux_append w [] [] hok, wordsAux_nil,
        if_neg (by simpa [List.isEmpty_iff] using hne)]
      simp
    | cons w2 ws2 =>
      have htail : ∀ x ∈ w2 :: ws2, x ≠ [] ∧ ∀ c ∈ x, isWs c = false :=
        fun x hx => h x (List.mem_cons_of_mem w hx)
      show wordsAux (joinSp (w :: w2 :: ws2)) [] = w :: w2 :: ws2
      have hj : joinSp (w :: w2 :: ws2) = w ++ ' ' :: joinSp (w2 :: ws2) := rfl
      rw [hj, wordsAux_append w (' ' :: joinSp (w2 :: ws2)) [] hok,
        wordsAux_cons, if_pos (by decide),
        if_neg (by simpa [List.isEmpty_iff] using hne)]
      have hrec : wordsAux (joinSp (w2 :: ws2)) [] = w2 :: ws2 := ih htail
      rw [hrec]
      simp

theorem wordsAux_dropWhile_ws (l : List Char) :
    wordsAux (l.dropWhile isWs) [] = wordsAux l [] := by
  induction l with
  | nil => rfl
  | cons a as ih =>
    by_cases ha : isWs a = true
    · rw [List.dropWhile_cons, if_pos ha, ih, wordsAux_cons, if_pos ha]
      simp
    · rw [List.dropWhile_cons, if_neg ha]

theorem wordsAux_allWs (cs : List Char) (h : ∀ c ∈ cs, isWs c = true) :
    ∀ cur, wordsAux cs cur = wordsAux [] cur := by
  induction cs with
  | nil => intro cur; rfl
  | cons a as ih =>
    intro cur
    have ha : isWs a = true := h a (List.mem_cons_self a as)
    have h' : ∀ c ∈ as, isWs c = true :=
      fun c hc => h c (List.mem_cons_of_mem a hc)
    rw [wordsAux_cons, if_pos ha, wordsAux_nil]
    by_cases hc : cur.isEmpty
    · rw [if_pos hc, if_pos hc, ih h' []]
      simp [wordsAux_nil]
    · rw [if_neg hc, if_neg hc, ih h' []]
      simp [wordsAux_nil]

theorem dropTrailWs_nil_allWs (l : List Char) (h : dropTrailWs l = []) :
    ∀ c ∈ l, isWs c = true := by
  induction l with
  | nil => simp
  | cons a as ih =>
    intro c hc
    cases hd : dropTrailWs as with
    | nil =>
      rw [dropTrailWs_cons_nil hd] at h
      by_cases ha : isWs a = true
      · rcases List.mem_cons.mp hc with rfl | hmem
        · exact ha
        · exact ih hd c hmem
      · simp [ha] at h
    | cons r rs =>
      rw [dropTrailWs_cons_cons hd] at h
      simp at h

theorem wordsAux_dropTrailWs (l : List Char) :
    ∀ cur, wordsAux (dropTrailWs l) cur = wordsAux l cur := by
  induction l with
  | nil => intro cur; rfl
  | cons a as ih =>
    intro cur
    cases hd : dropTrailWs as with
    | nil =>
      have hall : ∀ c ∈ as, isWs c = true := dropTrailWs_nil_allWs as hd
      have hz : ∀ cur2, wordsAux as cur2 = wordsAux [] cur2 :=
        wordsAux_allWs as hall
      rw [dropTrailWs_cons_nil hd]
      by_cases ha : isWs a = true
      · rw [if_pos ha,
          show wordsAux (a :: as) cur = _ from wordsAux_cons a as cur,
          if_pos ha, hz []]
        by_cases hc : cur.isEmpty <;> simp [wordsAux_nil, hc]
      · rw [if_neg ha,
          show wordsAux (a :: as) cur = _ from wordsAux_cons a as cur,
          if_neg ha, hz (a :: cur),
          show wordsAux [a] cur = _ from wordsAux_cons a [] cur, if_neg ha]
    | cons r rs =>
      rw [dropTrailWs_cons_cons hd,
        show wordsAux (a :: as) cur = _ from wordsAux_cons a as cur,
        show wordsAux (a :: r :: rs) cur = _ from wordsAux_cons a (r :: rs) cur]
      have ih1 := ih []
      have ih2 := ih (a :: cur)
      rw [hd] at ih1 ih2
      by_cases ha : isWs a = true
      · rw [if_pos ha, if_pos ha, ih1]
      · rw [if_neg ha, if_neg ha, ih2]

theorem jsWords_trim (l : List Char) : jsWords (jsTrim l) = jsWords l := by
  show wordsAux (dropTrailWs (l.dropWhile isWs)) [] = wordsAux l []
  rw [wordsAux_dropTrailWs (l.dropWhile isWs) [], wordsAux_dropWhile_ws]

theorem dropWhile_head_ws (l : List Char) (c : Char) (r : List Char)
    (h : l.dropWhile isWs = c :: r) : isWs c = false := by
  induction l with
  | nil => simp at h
  | cons a as ih =>
    by_cases ha : isWs a = true
    · rw [List.dropWhile_cons, if_pos ha] at h
      exact ih h
    · rw [List.dropWhile_cons, if_neg ha] at h
      cases h
      simpa using ha

theorem dropTrailWs_cons_head (a : Char) (as : List Char) (c : Char)
    (r : List Char) (h : dropTrailWs (a :: as) = c :: r) : c = a := by
  cases hd : dropTrailWs as with
  | nil =>
    rw [dropTrailWs_cons_nil hd] at h
    by_cases ha : isWs a = true
    · rw [if_pos ha] at h
      simp at h
    · rw [if_neg ha] at h
      injection h with h1 h2
      exact h1.symm
  | cons x xs =>
    rw [dropTrailWs_cons_cons hd] at h
    injection h with h1 h2
    exact h1.symm

theorem jsTrim_head (l : List Char) (c : Char) (r : List Char)
    (h : jsTrim l = c :: r) : isWs c = false := by
  unfold jsTrim at h
  cases hw : l.dropWhile isWs with
  | nil =>
    rw [hw, show dropTrailWs ([] : List Char) = [] from rfl] at h
    simp at h
  | cons a as =>
    rw [hw] at h
    have hca : c = a := dropTrailWs_cons_head a as c r h
    subst hca
    exact dropWhile_head_ws l c as hw

theorem noTrailWs_dropTrailWs (l : List Char) :
    noTrailWs (dropTrailWs l) = true := by
  induction l with
  | nil => rfl
  | cons a as ih =>
    cases hd : dropTrailWs as with
    | nil =>
      rw [dropTrailWs_cons_nil hd]
      by_cases ha : isWs a = true
      · rw [if_pos ha]; rfl
      · rw [if_neg ha, noTrailWs_single]
        simp only [Bool.not_eq_true] at ha
        rw [ha]
        rfl
    | cons r rs =>
      rw [dropTrailWs_cons_cons hd, noTrailWs_cons2]
      rw [hd] at ih
      exact ih

theorem splitWsGo_wordsAux (l : List Char) :
    (∀ cur, noTrailWs l = true →
      (cur = [] → ∃ c cs, l = c :: cs ∧ isWs c = false) →
      splitWsGo l (some cur) = wordsAux l cur) ∧
    (noTrailWs l = true → l ≠ [] → splitWsGo l none = wordsAux l []) := by
  induction l with
  | nil =>
    constructor
    · intro cur _ hcur
      by_cases hc : cur = []
      · obtain ⟨c, cs, hl, _⟩ := hcur hc
        exact absurd hl (by simp)
      · rw [splitWsGo_nil_some, wordsAux_nil,
          if_neg (by simpa [List.isEmpty_iff] using hc)]
    · intro _ h
      exact absurd rfl h
  | cons a as ih =>
    constructor
    · intro cur hnt hcur
      by_cases ha : isWs a = true
      · have hc : cur ≠ [] := by
          intro h0
          obtain ⟨c, cs, hl, hws⟩ := hcur h0
          injection hl with h1 h2
          subst h1
          rw [ha] at hws
          cases hws
        have has : as ≠ [] := by
          intro h0
          subst h0
          rw [noTrailWs_single, ha] at hnt
          cases hnt
        have hnt' : noTrailWs as = true := by
          cases as with
          | nil => exact absurd rfl has
          | cons b bs => rw [noTrailWs_cons2] at hnt; exact hnt
        rw [splitWsGo_cons_some, if_pos ha, wordsAux_cons, if_pos ha,
          if_neg (by simpa [List.isEmpty_iff] using hc), ih.2 hnt' has]
      · cases as with
        | nil =>
          rw [splitWsGo_cons_some, if_neg ha, splitWsGo_nil_some,
            wordsAux_cons, if_neg ha, wordsAux_nil, if_neg (by simp)]
        | cons b bs =>
          have hnt' : noTrailWs (b :: bs) = true := by
            rw [noTrailWs_cons2] at hnt; exact hnt
          rw [splitWsGo_cons_some, if_neg ha, wordsAux_cons, if_neg ha,
            ih.1 (a :: cur) hnt' (fun h0 => absurd h0 (by simp))]
    · intro hnt hne
      by_cases ha : isWs a = true
      · have has : as ≠ [] := by
          intro h0
          subst h0
          rw [noTrailWs_single, ha] at hnt
          cases hnt
        have hnt' : noTrailWs as = true := by
          cases as with
          | nil => exact absurd rfl has
          | cons b bs => rw [noTrailWs_cons2] at hnt; exact hnt
        rw [splitWsGo_cons_none, if_pos ha, wordsAux_cons, if_pos ha,
          if_pos (show ([] : List Char).isEmpty = true from rfl),
          ih.2 hnt' has]
      · cases as with
        | nil =>
          rw [splitWsGo_cons_none, if_neg ha, splitWsGo_nil_some,
            wordsAux_cons, if_neg ha, wordsAux_nil, if_neg (by simp)]
        | cons b bs =>
          have hnt' : noTrailWs (b :: bs) = true := by
            rw [noTrailWs_cons2] at hnt; exact hnt
          rw [splitWsGo_cons_none, if_neg ha, wordsAux_cons, if_neg ha,
            ih.1 [a] hnt' (fun h0 => absurd h0 (by simp))]

theorem normalize_eq_words (m : String) :
    _normalizeMnemonic m = String.mk (joinSp (jsWords m.toList)) := by
  unfold _normalizeMnemonic splitWsRuns
  congr 1
  cases ht : jsTrim m.toList with
  | nil =>
    have hw := jsWords_trim m.toList
    rw [ht] at hw
    rw [← hw]
    rfl
  | cons c cs =>
    have hhead : isWs c = false := jsTrim_head m.toList c cs ht
    have hnt : noTrailWs (jsTrim m.toList) = true := noTrailWs_dropTrailWs _
    rw [ht] at hnt
    have hb := (splitWsGo_wordsAux (c :: cs)).1 [] hnt
      (fun _ => ⟨c, cs, rfl, hhead⟩)
    have hw := jsWords_trim m.toList
    rw [ht] at hw
    rw [hb, ← hw]
    rfl

theorem normalize_good (m : String) :
    ∀ w ∈ jsWords m.toList, w ≠ [] ∧ ∀ c ∈ w, isWs c = false :=
  wordsAux_good m.toList [] (by simp)

theorem normalize_idem_aux (m : String) :
    _normalizeMnemonic (_normalizeMnemonic m) = _normalizeMnemonic m := by
  rw [normalize_eq_words m, normalize_eq_words (String.mk (joinSp (jsWords m.toList)))]
  congr 1
  rw [show (String.mk (joinSp (jsWords m.toList))).toList = joinSp (jsWords m.toList)
      from rfl,
    show jsWords (joinSp (jsWords m.toList)) = jsWords m.toList from
      jsWords_joinSp (jsWords m.toList) (normalize_good m)]

/-! Lemmas about the bip39 generation model and the derivation pipeline. -/

theorem chunkN_length (k : Nat) : ∀ (fuel : Nat) (l : List Bool),
    l.length = 11 * k → k ≤ fuel → (chunkN fuel l).length = k := by
  induction k with
  | zero =>
    intro fuel l hl _
    have hnil : l = [] := List.length_eq_zero.mp (by omega)
    subst hnil
    cases fuel <;> rfl
  | succ k ih =>
    intro fuel l hl hf
    cases fuel with
    | zero => omega
    | succ f =>
      cases l with
      | nil => simp at hl
      | cons a as =>
        rw [chunkN_succ_cons, List.length_cons,
          ih f ((a :: as).drop 11) (by rw [List.length_drop, hl]; omega)
            (by omega)]

theorem chunk11_length (l : List Bool) (h : l.length = 264) :
    (chunk11 l).length = 24 := by
  unfold chunk11
  exact chunkN_length 24 l.length l (by omega) (by omega)

theorem mnemonicWordCount_fromEntropy (wl : Nat → List Char)
    (ent cs : List Bool) (hent : ent.length = 256) (hcs : cs.length = 8)
    (hwl : ∀ n, wl n ≠ [] ∧ ∀ c ∈ wl n, isWs c = false) :
    mnemonicWordCount (mnemonicFromEntropy wl ent cs) = 24 := by
  unfold mnemonicWordCount mnemonicFromEntropy
  rw [show (String.mk (joinSp ((chunk11 (ent ++ cs)).map
      (fun g => wl (bitsToNat g))))).toList =
    joinSp ((chunk11 (ent ++ cs)).map (fun g => wl (bitsToNat g))) from rfl]
  rw [jsWords_joinSp _ (by
    intro w hw
    obtain ⟨g, _, hg⟩ := List.mem_map.mp hw
    rw [← hg]
    exact hwl (bitsToNat g))]
  rw [List.length_map]
  exact chunk11_length (ent ++ cs) (by rw [List.length_append, hent, hcs])

theorem restore_eq_create_norm (self : Wallet) (C : Crypto) (m : String)
    (p d : Option String) :
    restoreFromMnemonicM self C m p d =
      createM self C (_normalizeMnemonic m) p d := rfl

theorem take32_append_inj {s1 s2 u1 u2 : List Nat} (h1 : s1.length = 32)
    (h2 : s2.length = 32) (h : s1 ++ u1 = s2 ++ u2) : s1 = s2 := by
  have := congrArg (List.take 32) h
  rwa [List.take_left' h1, List.take_left' h2] at this

theorem createM_ok_elim (self : Wallet) (C : Crypto) (gen : String)
    (p d : Option String) (w : Wallet)
    (h : createM self C gen p d = Except.ok w) :
    C.validateMnemonic gen = true ∧
    C.isValidPath (jsOrStr d bip44ChangePath) = true ∧
    (C.derivePathKey (jsOrStr d bip44ChangePath)
      (C.mnemonicToSeedHexFn gen (passStr p))).length = 32 ∧
    w = ⟨some (jsOrStr d bip44ChangePath), some gen,
      some (C.derivePathKey (jsOrStr d bip44ChangePath)
        (C.mnemonicToSeedHexFn gen (passStr p))),
      some (C.mnemonicToSeedHexFn gen (passStr p)),
      some ⟨C.derivePathKey (jsOrStr d bip44ChangePath)
          (C.mnemonicToSeedHexFn gen (passStr p)) ++
        C.naclPub (C.derivePathKey (jsOrStr d bip44ChangePath)
          (C.mnemonicToSeedHexFn gen (passStr p))),
        C.naclPub (C.derivePathKey (jsOrStr d bip44ChangePath)
          (C.mnemonicToSeedHexFn gen (passStr p)))⟩⟩ := by
  by_cases hv : C.validateMnemonic gen = true
  case neg =>
    exfalso
    by_cases hp : C.isValidPath (jsOrStr d bip44ChangePath) = true <;>
      simp [createM, _mnemonicToSeedHex, derivePathCall, hv, hp] at h
  case pos =>
    by_cases hp : C.isValidPath (jsOrStr d bip44ChangePath) = true
    case neg =>
      exfalso
      simp [createM, _mnemonicToSeedHex, derivePathCall, hv, hp] at h
    case pos =>
      by_cases hk : (C.derivePathKey (jsOrStr d bip44ChangePath)
          (C.mnemonicToSeedHexFn gen (passStr p))).length = 32
      case neg =>
        exfalso
        simp [createM, _mnemonicToSeedHex, derivePathCall, naclFromSeed,
          hv, hp, hk] at h
      case pos =>
        by_cases hq : (C.naclPub (C.derivePathKey (jsOrStr d bip44ChangePath)
            (C.mnemonicToSeedHexFn gen (passStr p)))).length = 32
        case neg =>
          exfalso
          simp [createM, _mnemonicToSeedHex, derivePathCall, naclFromSeed,
            keypairFromSecretKey, hv, hp, hk, hq, List.length_append] at h
          have h64 : ¬(32 + (C.naclPub (C.derivePathKey (jsOrStr d bip44ChangePath)
              (C.mnemonicToSeedHexFn gen (passStr p)))).length = 64) := by omega
          rw [if_neg h64] at h
          simp at h
        case pos =>
          refine ⟨hv, hp, hk, ?_⟩
          have hrun : createM self C gen p d = Except.ok
              ⟨some (jsOrStr d bip44ChangePath), some gen,
                some (C.derivePathKey (jsOrStr d bip44ChangePath)
                  (C.mnemonicToSeedHexFn gen (passStr p))),
                some (C.mnemonicToSeedHexFn gen (passStr p)),
                some ⟨C.derivePathKey (jsOrStr d bip44ChangePath)
                    (C.mnemonicToSeedHexFn gen (passStr p)) ++
                  C.naclPub (C.derivePathKey (jsOrStr d bip44ChangePath)
                    (C.mnemonicToSeedHexFn gen (passStr p))),
                  C.naclPub (C.derivePathKey (jsOrStr d bip44ChangePath)
                    (C.mnemonicToSeedHexFn gen (passStr p)))⟩⟩ := by
            simp [createM, _mnemonicToSeedHex, derivePathCall, naclFromSeed,
              keypairFromSecretKey, hv, hp, List.length_append, hk, hq,
              List.take_left' hk, List.drop_left' hk]
          rw [hrun] at h
          injection h with h1
          exact h1.symm

/-! The claim theorems. -/

/-- C1: for every passphrase and derivation path, restoring from a freshly
generated wallet's mnemonic with the same passphrase and path reproduces
the identical keypair (the BIP-39 and SLIP-0010 primitives are modelled as
fixed deterministic functions; `bip39.generateMnemonic` returns a phrase
that is already in normal form, which is the `hnorm` hypothesis). -/
theorem create_restore_roundtrip (C : Crypto) (gen : String)
    (p d : Option String) (w : Wallet)
    (hnorm : _normalizeMnemonic gen = gen)
    (hc : createM Wallet.new C gen p d = Except.ok w) :
    Wallet.mnemonic w = some gen ∧
    ∃ w2, restoreFromMnemonicM Wallet.new C ((Wallet.mnemonic w).getD ("")) p d =
        Except.ok w2 ∧ Wallet.keypair w2 = Wallet.keypair w := by
  obtain ⟨hv, hp, hk, hw⟩ := createM_ok_elim Wallet.new C gen p d w hc
  subst hw
  refine ⟨rfl, _, ?_, rfl⟩
  show restoreFromMnemonicM Wallet.new C gen p d = Except.ok _
  rw [restore_eq_create_norm, hnorm]
  exact hc

/-- Witness for C1 at a concrete crypto instance, passphrase and default
path. -/
theorem create_restore_roundtrip_witness :
    Wallet.mnemonic wDefault = some ("abandon ability") ∧
    ∃ w2, restoreFromMnemonicM Wallet.new cryptoOk
        ((Wallet.mnemonic wDefault).getD ("")) none none =
        Except.ok w2 ∧ Wallet.keypair w2 = Wallet.keypair wDefault :=
  create_restore_roundtrip cryptoOk ("abandon ability") none none wDefault
    (by decide) (by rfl)

/-- C2: a mnemonic that fails BIP-39 checksum validation yields no seed
(`_mnemonicToSeedHex` returns `null`), and `restoreFromMnemonic` never
completes with a wallet: feeding the `null` seed to `derivePath` throws,
so the restore rejects rather than deriving a keypair from any substituted
seed. -/
theorem invalid_mnemonic_rejected (C : Crypto) (m : String)
    (p d : Option String)
    (hv : C.validateMnemonic (_normalizeMnemonic m) = false) :
    _mnemonicToSeedHex C (_normalizeMnemonic m) p = none ∧
    ∀ w, restoreFromMnemonicM Wallet.new C m p d ≠ Except.ok w := by
  constructor
  · simp [_mnemonicToSeedHex, hv]
  · intro w h
    rw [restore_eq_create_norm] at h
    have hval := (createM_ok_elim Wallet.new C (_normalizeMnemonic m) p d w h).1
    rw [hv] at hval
    exact Bool.noConfusion hval

/-- Witness for C2 at a crypto instance whose validator rejects every
phrase. -/
theorem invalid_mnemonic_rejected_witness :
    _mnemonicToSeedHex cryptoBad (_normalizeMnemonic ("zzz")) none = none ∧
    restoreFromMnemonicM Wallet.new cryptoBad ("zzz") none none ≠
      Except.ok Wallet.new := by
  have h := invalid_mnemonic_rejected cryptoBad ("zzz") none none (by rfl)
  exact ⟨h.1, h.2 Wallet.new⟩

/-- C3: the package index re-exports `Wallet` and `walletFactory` from
`wallet.js`, but `wallet.js` exports a bare `WalletFactory` instance with
no such properties, so both re-exports are `undefined`, as is the
`Wallet` binding destructured in `spl.js`. -/
theorem package_exports_undefined :
    jsGet indexModuleExports ("Wallet") = JsValue.undef ∧
    jsGet indexModuleExports ("walletFactory") = JsValue.undef ∧
    splWalletBinding = JsValue.undef :=
  ⟨rfl, rfl, rfl⟩

/-- Counterexample for C4 as stated: normalization does not lowercase.
The phrase has irregular internal whitespace, yet the normalized result
retains the uppercase letter `W`. -/
theorem normalize_not_lowercase_cx :
    _normalizeMnemonic ("Word1  Word2\tWord3") = "Word1 Word2 Word3" ∧
    'W' ∈ (_normalizeMnemonic ("Word1  Word2\tWord3")).toList ∧
    ('W').isLower = false := by
  refine ⟨by decide, by decide, by decide⟩

/-- C4 (amended): normalization is idempotent, and for every phrase the
result is the single-space join of the phrase's maximal whitespace-free
words, which are nonempty and contain no whitespace — but letter case is
preserved, not lowercased. -/
theorem normalize_idem_single_spaced (m : String) :
    _normalizeMnemonic (_normalizeMnemonic m) = _normalizeMnemonic m ∧
    (_normalizeMnemonic m).toList = joinSp (jsWords m.toList) ∧
    ∀ w ∈ jsWords m.toList, w ≠ [] ∧ ∀ c ∈ w, isWs c = false := by
  refine ⟨normalize_idem_aux m, ?_, normalize_good m⟩
  rw [normalize_eq_words m]
  rfl

/-- Counterexample for C5 as stated: the fixed table has no entry named
`legacy`; its first entry is named `deprecated`. -/
theorem derivation_table_no_legacy_cx :
    List.lookup ("legacy") derivationPathsTable = none ∧
    derivationPathsTable ≠ specDerivationPaths :=
  ⟨by decide, by decide⟩

/-- C5 (amended): the derivationPaths accessor exposes exactly three
entries: `deprecated` mapped to m/501'/0'/0/0, `bip44` mapped to
m/44'/501'/0', and `bip44Change` mapped to m/44'/501'/0'/0'. -/
theorem derivation_table_entries (w : Wallet) :
    Wallet.derivationPaths w =
      [("deprecated", "m/501\x27/0\x27/0/0"),
        ("bip44", "m/44\x27/501\x27/0\x27"),
        ("bip44Change", "m/44\x27/501\x27/0\x27/0\x27")] := rfl

/-- C6: when no derivation path argument is supplied, both `create` and
`restoreFromMnemonic` record the `bip44Change` path and use it for the
child-key derivation that produces the stored seed. -/
theorem default_path_bip44Change (C : Crypto) (gen m : String)
    (p : Option String) (w w2 : Wallet) :
    (createM Wallet.new C gen p none = Except.ok w →
      w._derivedPath = some bip44ChangePath ∧
      w._seedHex = some (C.mnemonicToSeedHexFn gen (passStr p)) ∧
      w._seed = some (C.derivePathKey bip44ChangePath
        (C.mnemonicToSeedHexFn gen (passStr p)))) ∧
    (restoreFromMnemonicM Wallet.new C m p none = Except.ok w2 →
      w2._derivedPath = some bip44ChangePath ∧
      w2._seed = some (C.derivePathKey bip44ChangePath
        (C.mnemonicToSeedHexFn (_normalizeMnemonic m) (passStr p)))) := by
  constructor
  · intro h
    obtain ⟨_, _, _, hw⟩ := createM_ok_elim Wallet.new C gen p none w h
    subst hw
    exact ⟨rfl, rfl, rfl⟩
  · intro h
    rw [restore_eq_create_norm] at h
    obtain ⟨_, _, _, hw⟩ :=
      createM_ok_elim Wallet.new C (_normalizeMnemonic m) p none w2 h
    subst hw
    exact ⟨rfl, rfl⟩

/-- Witness for C6 at a concrete crypto instance. -/
theorem default_path_bip44Change_witness :
    (wDefault._derivedPath = some bip44ChangePath ∧
      wDefault._seedHex = some (cryptoOk.mnemonicToSeedHexFn
        ("abandon ability") (passStr none)) ∧
      wDefault._seed = some (cryptoOk.derivePathKey bip44ChangePath
        (cryptoOk.mnemonicToSeedHexFn ("abandon ability") (passStr none)))) ∧
    (wPathC._derivedPath = some bip44ChangePath ∧
      wPathC._seed = some (cryptoOk.derivePathKey bip44ChangePath
        (cryptoOk.mnemonicToSeedHexFn (_normalizeMnemonic ("x"))
          (passStr none)))) := by
  have h := default_path_bip44Change cryptoOk ("abandon ability") ("x")
    none wDefault wPathC
  exact ⟨h.1 (by rfl), h.2 (by rfl)⟩

/-- C7: for a private key in the 64-byte format ed25519 signing expects
(secret scalar then public key), `restoreFromPrivateKey` succeeds and the
resulting wallet's private key bytes are exactly the input. -/
theorem private_key_exact (self : Wallet) (C : Crypto) (k : List Nat)
    (hlen : k.length = 64) (hpub : C.naclPub (k.take 32) = k.drop 32) :
    ∃ w, restoreFromPrivateKeyM self C k = Except.ok w ∧
      Wallet.privateKey w = some k := by
  refine ⟨⟨none, none, none, none, some ⟨k, k.drop 32⟩⟩, ?_, rfl⟩
  simp [restoreFromPrivateKeyM, keypairFromSecretKey, hlen, hpub]

/-- Witness for C7 at a concrete 64-byte key. -/
theorem private_key_exact_witness :
    ∃ w, restoreFromPrivateKeyM Wallet.new cryptoOk pk1 = Except.ok w ∧
      Wallet.privateKey w = some pk1 :=
  private_key_exact Wallet.new cryptoOk pk1 (by decide) (by decide)

/-- C8: with the mnemonic and passphrase held fixed, restoring along the
three recognized paths yields pairwise distinct keypairs, provided the
child-key derivation separates the three paths on the derived seed (the
claim's path-injectivity model, instantiated at the relevant seed). -/
theorem distinct_paths_distinct_keypairs (C : Crypto) (m : String)
    (p : Option String) (w1 w2 w3 : Wallet)
    (h1 : restoreFromMnemonicM Wallet.new C m p (some deprecatedPath) =
      Except.ok w1)
    (h2 : restoreFromMnemonicM Wallet.new C m p (some bip44Path) =
      Except.ok w2)
    (h3 : restoreFromMnemonicM Wallet.new C m p (some bip44ChangePath) =
      Except.ok w3)
    (hd12 : C.derivePathKey deprecatedPath
        (C.mnemonicToSeedHexFn (_normalizeMnemonic m) (passStr p)) ≠
      C.derivePathKey bip44Path
        (C.mnemonicToSeedHexFn (_normalizeMnemonic m) (passStr p)))
    (hd13 : C.derivePathKey deprecatedPath
        (C.mnemonicToSeedHexFn (_normalizeMnemonic m) (passStr p)) ≠
      C.derivePathKey bip44ChangePath
        (C.mnemonicToSeedHexFn (_normalizeMnemonic m) (passStr p)))
    (hd23 : C.derivePathKey bip44Path
        (C.mnemonicToSeedHexFn (_normalizeMnemonic m) (passStr p)) ≠
      C.derivePathKey bip44ChangePath
        (C.mnemonicToSeedHexFn (_normalizeMnemonic m) (passStr p))) :
    Wallet.keypair w1 ≠ Wallet.keypair w2 ∧
    Wallet.keypair w1 ≠ Wallet.keypair w3 ∧
    Wallet.keypair w2 ≠ Wallet.keypair w3 := by
  rw [restore_eq_create_norm] at h1 h2 h3
  obtain ⟨-, -, hk1, hw1⟩ :=
    createM_ok_elim Wallet.new C (_normalizeMnemonic m) p (some deprecatedPath) w1 h1
  obtain ⟨-, -, hk2, hw2⟩ :=
    createM_ok_elim Wallet.new C (_normalizeMnemonic m) p (some bip44Path) w2 h2
  obtain ⟨-, -, hk3, hw3⟩ :=
    createM_ok_elim Wallet.new C (_normalizeMnemonic m) p (some bip44ChangePath) w3 h3
  have e1 : jsOrStr (some deprecatedPath) bip44ChangePath = deprecatedPath := by
    decide
  have e2 : jsOrStr (some bip44Path) bip44ChangePath = bip44Path := by decide
  have e3 : jsOrStr (some bip44ChangePath) bip44ChangePath = bip44ChangePath := by
    decide
  rw [e1] at hk1 hw1
  rw [e2] at hk2 hw2
  rw [e3] at hk3 hw3
  subst hw1 hw2 hw3
  refine ⟨?_, ?_, ?_⟩
  · intro heq
    simp [Wallet.keypair, Keypair.mk.injEq] at heq
    exact hd12 (take32_append_inj hk1 hk2 heq.1)
  · intro heq
    simp [Wallet.keypair, Keypair.mk.injEq] at heq
    exact hd13 (take32_append_inj hk1 hk3 heq.1)
  · intro heq
    simp [Wallet.keypair, Keypair.mk.injEq] at heq
    exact hd23 (take32_append_inj hk2 hk3 heq.1)

/-- Witness for C8 at a concrete crypto instance whose derivation tags
the three paths differently. -/
theorem distinct_paths_distinct_keypairs_witness :
    Wallet.keypair wPathA ≠ Wallet.keypair wPathB ∧
    Wallet.keypair wPathA ≠ Wallet.keypair wPathC ∧
    Wallet.keypair wPathB ≠ Wallet.keypair wPathC :=
  distinct_paths_distinct_keypairs cryptoOk ("x") none wPathA wPathB wPathC
    (by rfl) (by rfl) (by rfl) (by decide) (by decide) (by decide)

/-- C9: a wallet produced by `create` carries a mnemonic of exactly 24
whitespace-separated words, where the generated mnemonic comes from the
bip39 encoding of 256 entropy bits plus 8 checksum bits over a wordlist
of nonempty whitespace-free words. -/
theorem generated_mnemonic_24_words (C : Crypto) (wl : Nat → List Char)
    (ent cs : List Bool) (gen : String) (p d : Option String) (w : Wallet)
    (hent : ent.length = 256) (hcs : cs.length = 8)
    (hwl : ∀ n, wl n ≠ [] ∧ ∀ c ∈ wl n, isWs c = false)
    (hgen : gen = mnemonicFromEntropy wl ent cs)
    (h : createM Wallet.new C gen p d = Except.ok w) :
    ∃ s, Wallet.mnemonic w = some s ∧ mnemonicWordCount s = 24 := by
  obtain ⟨-, -, -, hw⟩ := createM_ok_elim Wallet.new C gen p d w h
  subst hw
  refine ⟨gen, rfl, ?_⟩
  rw [hgen]
  exact mnemonicWordCount_fromEntropy wl ent cs hent hcs hwl

/-- Witness for C9 at 256 concrete entropy bits. -/
theorem generated_mnemonic_24_words_witness :
    ∃ s, Wallet.mnemonic wGen = some s ∧ mnemonicWordCount s = 24 :=
  generated_mnemonic_24_words cryptoOk wlW entW csW genW none none wGen
    (by simp [entW]) (by simp [csW])
    (fun n => ⟨by simp [wlW], by
      intro c hc
      simp [wlW] at hc
      subst hc
      decide⟩)
    rfl (by rfl)

/-- Counterexample for C10 as stated: the construction methods are
ordinary instance methods that reassign every field and return `this`,
so invoking `restoreFromPrivateKey` a second time on an already
materialized wallet replaces its keypair — the keypair is not immutable
against the operations available on the instance. -/
theorem keypair_mutated_by_reconstruction_cx :
    restoreFromPrivateKeyM Wallet.new cryptoOk pk1 = Except.ok wPk1 ∧
    restoreFromPrivateKeyM wPk1 cryptoOk pk2 = Except.ok wPk2 ∧
    Wallet.keypair wPk2 ≠ Wallet.keypair wPk1 :=
  ⟨rfl, rfl, by decide⟩

/-- C10 (amended): each construction method overwrites every field, so
the resulting wallet state is a function of the call's arguments alone
and is independent of the instance's prior state; there is no partial
update path.  (The methods do, however, mutate the receiver when
re-invoked, so an instance is not immutable; the factory avoids this by
calling them on a fresh `new Wallet()`.) -/
theorem construction_state_independent (s1 s2 : Wallet) (C : Crypto)
    (gen m : String) (sd k : List Nat) (p d : Option String) :
    createM s1 C gen p d = createM s2 C gen p d ∧
    restoreFromMnemonicM s1 C m p d = restoreFromMnemonicM s2 C m p d ∧
    restoreFromSeedM s1 C sd = restoreFromSeedM s2 C sd ∧
    restoreFromPrivateKeyM s1 C k = restoreFromPrivateKeyM s2 C k :=
  ⟨rfl, rfl, rfl, rfl⟩

end SolanaToken
